import Mathlib

/-!
Verification of the Tetromino distractor-game engine of `cogandmem/tetromino.py`.

The Python module is embedded shallowly:

* board cells (Python: the string `"."` or an `int` index into `COLOURS`) become
  the inductive type `Cell`;
* the shape templates (lists of five 5-character strings) become lists of
  character lists;
* `GameBoard` and `Piece` become structures whose methods are pure functions
  returning the updated value;
* Python list reads out of range are modelled with `List.getD`; Python list
  writes use `List.set` after normalising a negative index the way Python does
  (`l[i]` with `i < 0` means `l[len(l)+i]`); indices outside Python's legal
  range (where CPython would raise `IndexError`) are modelled as no-ops and the
  theorems below restrict themselves to in-range indices;
* the float constants `0.35`, `0.01`, `0.3`, `0.15`, `0.1` are modelled as the
  exact rationals they denote;
* the `while` loop of `remove_complete_lines` is modelled with explicit fuel,
  returning `none` when the fuel runs out, so that termination of the Python
  loop is itself a provable statement;
* the randomness of `Piece.__init__` (shape, orientation and colour drawn when
  the corresponding argument is `None`) is modelled by passing the drawn values
  explicitly, and the wall clock `time.time()` by passing the current time as a
  rational argument.
-/

set_option maxRecDepth 100000

/-- A board cell: Python stores either `BLANK` (the string `"."`) or an integer
index into the `COLOURS` tuple. -/
inductive Cell
  | blank
  | colour (n : Nat)
deriving DecidableEq

/-- The seven shape names, the keys of the `PIECES` dictionary. -/
inductive Shape
  | S | Z | J | L | I | O | T
deriving DecidableEq

/-- `LINES_PER_LEVEL = 10`. -/
def LINES_PER_LEVEL : Nat := 10

/-- `BASE_FALL_FREQUENCY = 0.35`, modelled exactly. -/
def BASE_FALL_FREQUENCY : ℚ := 35 / 100

/-- `FALL_FREQUENCY_INCREASE_PER_LEVEL = 0.01`, modelled exactly. -/
def FALL_FREQUENCY_INCREASE_PER_LEVEL : ℚ := 1 / 100

/-- `NEW_PIECES_START_Y = -2`: y coordinate for new pieces. -/
def NEW_PIECES_START_Y : Int := -2

/-- `MOVE_SIDEWAYS_FREQUENCY = 0.15`, modelled exactly. -/
def MOVE_SIDEWAYS_FREQUENCY : ℚ := 15 / 100

/-- `MOVE_DOWN_FREQUENCY = 0.1`, modelled exactly. -/
def MOVE_DOWN_FREQUENCY : ℚ := 1 / 10

/-- The template blank marker `BLANK = "."` (used as the character it holds). -/
def BLANK : Char := '.'

/-- `TEMPLATE_WIDTH = 5`. -/
def TEMPLATE_WIDTH : Nat := 5

/-- `TEMPLATE_HEIGHT = 5`. -/
def TEMPLATE_HEIGHT : Nat := 5

/-- `len(COLOURS) = 4` (`COLOURS = (BLUE, GREEN, RED, YELLOW)`). -/
def COLOURS_LENGTH : Nat := 4

/-- `S_SHAPE_TEMPLATE`. -/
def S_SHAPE_TEMPLATE : List (List (List Char)) :=
  [[".....".toList, ".....".toList, "..OO.".toList, ".OO..".toList, ".....".toList],
   [".....".toList, "..O..".toList, "..OO.".toList, "...O.".toList, ".....".toList]]

/-- `Z_SHAPE_TEMPLATE`. -/
def Z_SHAPE_TEMPLATE : List (List (List Char)) :=
  [[".....".toList, ".....".toList, ".OO..".toList, "..OO.".toList, ".....".toList],
   [".....".toList, "..O..".toList, ".OO..".toList, ".O...".toList, ".....".toList]]

/-- `I_SHAPE_TEMPLATE`. -/
def I_SHAPE_TEMPLATE : List (List (List Char)) :=
  [["..O..".toList, "..O..".toList, "..O..".toList, "..O..".toList, ".....".toList],
   [".....".toList, ".....".toList, "OOOO.".toList, ".....".toList, ".....".toList]]

/-- `O_SHAPE_TEMPLATE`. -/
def O_SHAPE_TEMPLATE : List (List (List Char)) :=
  [[".....".toList, ".....".toList, ".OO..".toList, ".OO..".toList, ".....".toList]]

/-- `J_SHAPE_TEMPLATE`. -/
def J_SHAPE_TEMPLATE : List (List (List Char)) :=
  [[".....".toList, ".O...".toList, ".OOO.".toList, ".....".toList, ".....".toList],
   [".....".toList, "..OO.".toList, "..O..".toList, "..O..".toList, ".....".toList],
   [".....".toList, ".....".toList, ".OOO.".toList, "...O.".toList, ".....".toList],
   [".....".toList, "..O..".toList, "..O..".toList, ".OO..".toList, ".....".toList]]

/-- `L_SHAPE_TEMPLATE`. -/
def L_SHAPE_TEMPLATE : List (List (List Char)) :=
  [[".....".toList, "...O.".toList, ".OOO.".toList, ".....".toList, ".....".toList],
   [".....".toList, "..O..".toList, "..O..".toList, "..OO.".toList, ".....".toList],
   [".....".toList, ".....".toList, ".OOO.".toList, ".O...".toList, ".....".toList],
   [".....".toList, ".OO..".toList, "..O..".toList, "..O..".toList, ".....".toList]]

/-- `T_SHAPE_TEMPLATE`. -/
def T_SHAPE_TEMPLATE : List (List (List Char)) :=
  [[".....".toList, "..O..".toList, ".OOO.".toList, ".....".toList, ".....".toList],
   [".....".toList, "..O..".toList, "..OO.".toList, "..O..".toList, ".....".toList],
   [".....".toList, ".....".toList, ".OOO.".toList, "..O..".toList, ".....".toList],
   [".....".toList, "..O..".toList, ".OO..".toList, "..O..".toList, ".....".toList]]

/-- The `PIECES` dictionary mapping each shape name to its template. -/
def PIECES : Shape → List (List (List Char))
  | Shape.S => S_SHAPE_TEMPLATE
  | Shape.Z => Z_SHAPE_TEMPLATE
  | Shape.J => J_SHAPE_TEMPLATE
  | Shape.L => L_SHAPE_TEMPLATE
  | Shape.I => I_SHAPE_TEMPLATE
  | Shape.O => O_SHAPE_TEMPLATE
  | Shape.T => T_SHAPE_TEMPLATE

/-- Number of orientations of a shape: `len(PIECES[shape])`. -/
def numOrientations (s : Shape) : Nat := (PIECES s).length

/-- `PIECES[shape][orientation][y][x]`: the template character at template
column `x` and template row `y`.  Out-of-range accesses (which CPython would
refuse) default to the blank marker. -/
def templateCell (s : Shape) (orientation y x : Nat) : Char :=
  (((PIECES s).getD orientation []).getD y []).getD x BLANK

/-- The game board: `state` is a `columns`-element list of columns, each a
`rows`-element list of cells (`state[x][y]` is column `x`, row `y`).  The
pixel-geometry attributes `left`, `top` and `cell_size` are carried along
unused by the game logic. -/
structure GameBoard where
  columns : Nat
  rows : Nat
  state : List (List Cell)
  left : Int
  top : Int
  cell_size : Nat
deriving DecidableEq

/-- `GameBoard.__init__(self, left, top, cell_size, columns=10, rows=20)`.
Note the source hardcodes `self.columns = 10` and `self.rows = 20` while
building `self.state` from the `columns` and `rows` parameters. -/
def GameBoard.init (left top : Int) (cell_size : Nat) (columns : Nat := 10)
    (rows : Nat := 20) : GameBoard :=
  { columns := 10
    rows := 20
    state := List.replicate columns (List.replicate rows Cell.blank)
    left := left
    top := top
    cell_size := cell_size }

/-- `GameBoard.reset`: rebuild `state` as `self.columns` columns of
`self.rows` blank cells. -/
def GameBoard.reset (b : GameBoard) : GameBoard :=
  { b with state := List.replicate b.columns (List.replicate b.rows Cell.blank) }

/-- `GameBoard.is_on_board(x, y)`. -/
def GameBoard.is_on_board (b : GameBoard) (x y : Int) : Bool :=
  decide (0 ≤ x ∧ x < b.columns ∧ 0 ≤ y ∧ y < b.rows)

/-- Read `state[x][y]` for non-negative indices, defaulting to blank when out
of range (all in-range game reads agree with CPython). -/
def GameBoard.cellAt (b : GameBoard) (x y : Nat) : Cell :=
  (b.state.getD x []).getD y Cell.blank

/-- Read `state[x][y]` at integer coordinates; the game only reads coordinates
already validated by `is_on_board`, hence non-negative. -/
def GameBoard.cellI (b : GameBoard) (x y : Int) : Cell :=
  b.cellAt x.toNat y.toNat

/-- `GameBoard.is_complete_line(y)`: the `for`/`else` loop sets
`complete = False` on the first blank cell among columns `0..self.columns-1`
and `True` when none is blank. -/
def GameBoard.is_complete_line (b : GameBoard) (y : Nat) : Bool :=
  (List.range b.columns).all fun x => !(b.cellAt x y == Cell.blank)

/-- Number of coloured (non-blank) cells in a board state. -/
def coloredCount (st : List (List Cell)) : Nat :=
  (st.map fun col => col.countP fun c => !(c == Cell.blank)).sum

/-- One column after the pull-down of `remove_complete_lines` at row `y`:
row 0 becomes blank, rows `1..y` receive the row above, rows `> y` keep their
content.  The length is preserved. -/
def pullColumn (y : Nat) (col : List Cell) : List Cell :=
  (List.range col.length).map fun r =>
    if r = 0 then Cell.blank
    else if r ≤ y then col.getD (r - 1) Cell.blank
    else col.getD r Cell.blank

/-- The body of the complete-line branch of `remove_complete_lines`: for every
`x in xrange(self.columns)` the rows `y, y-1, ..., 1` are overwritten with the
row above and row 0 is blanked.  Columns with index `≥ self.columns` are left
untouched. -/
def GameBoard.shiftDown (b : GameBoard) (y : Nat) : GameBoard :=
  { b with state := (b.state.take b.columns).map (pullColumn y) ++ b.state.drop b.columns }

/-- The `while y >= 0` loop of `remove_complete_lines`, with explicit fuel.
On a complete line the board is compacted and the same row index is retried;
otherwise `y` is decremented.  `none` models the loop still running when the
fuel is exhausted. -/
def removeLoop : Nat → GameBoard → Int → Nat → Option (GameBoard × Nat)
  | 0, _, _, _ => none
  | fuel + 1, b, y, lines =>
    if y < 0 then some (b, lines)
    else if b.is_complete_line y.toNat then
      removeLoop fuel (b.shiftDown y.toNat) y (lines + 1)
    else
      removeLoop fuel b (y - 1) lines

/-- `GameBoard.remove_complete_lines`: run the loop from `self.rows - 1` with
fuel that lemma `removeLoop_runs_out_never` below proves sufficient. -/
def GameBoard.remove_complete_lines (b : GameBoard) : Option (GameBoard × Nat) :=
  removeLoop (coloredCount b.state + b.rows + 1) b ((b.rows : Int) - 1) 0

/-- A board is well formed when its state really has `columns` columns of
`rows` cells each — the invariant the constructor establishes when its
parameters agree with the hardcoded attributes. -/
def WF (b : GameBoard) : Prop :=
  b.state.length = b.columns ∧ ∀ col ∈ b.state, col.length = b.rows

instance (b : GameBoard) : Decidable (WF b) := by
  unfold WF; infer_instance

/-- A Tetromino piece. -/
structure Piece where
  shape : Shape
  x : Int
  y : Int
  orientation : Nat
  colour : Nat
deriving DecidableEq

/-- `Piece.__init__(self, b, shape, orientation, colour)`: the position is
fixed (`x` centred via floor division, `y = NEW_PIECES_START_Y`); the shape,
orientation and colour are random draws in the source, passed explicitly
here. -/
def Piece.init (b : GameBoard) (shape : Shape) (orientation colour : Nat) : Piece :=
  { shape := shape
    x := (b.columns : Int) / 2 - (TEMPLATE_WIDTH : Int) / 2
    y := NEW_PIECES_START_Y
    orientation := orientation
    colour := colour }

/-- `Piece.is_valid_position(b, x_adjustment, y_adjustment)`.  The Python
`break` statements only leave the inner loop, but `valid` is never reset to
`True`, so the result is `False` exactly when some occupied, not-above-board
cell is off the board or already coloured. -/
def Piece.is_valid_position (p : Piece) (b : GameBoard)
    (x_adjustment : Int := 0) (y_adjustment : Int := 0) : Bool :=
  (List.range TEMPLATE_WIDTH).all fun x =>
    (List.range TEMPLATE_HEIGHT).all fun y =>
      if decide ((y : Int) + p.y + y_adjustment < 0)
          || (templateCell p.shape p.orientation y x == BLANK) then
        true
      else
        b.is_on_board ((x : Int) + p.x + x_adjustment) ((y : Int) + p.y + y_adjustment)
          && (b.cellI ((x : Int) + p.x + x_adjustment) ((y : Int) + p.y + y_adjustment)
                == Cell.blank)

/-- `Piece.legal_left(b)`. -/
def Piece.legal_left (p : Piece) (b : GameBoard) : Bool :=
  p.is_valid_position b (-1) 0

/-- `Piece.legal_right(b)`. -/
def Piece.legal_right (p : Piece) (b : GameBoard) : Bool :=
  p.is_valid_position b 1 0

/-- `Piece.legal_down(b)`. -/
def Piece.legal_down (p : Piece) (b : GameBoard) : Bool :=
  p.is_valid_position b 0 1

/-- `Piece.move_left`. -/
def Piece.move_left (p : Piece) : Piece := { p with x := p.x - 1 }

/-- `Piece.move_right`. -/
def Piece.move_right (p : Piece) : Piece := { p with x := p.x + 1 }

/-- `Piece.move_down`. -/
def Piece.move_down (p : Piece) : Piece := { p with y := p.y + 1 }

/-- The `for i in xrange(1, b.rows)` loop of `move_to_bottom`: at most
`b.rows - 1` iterations, each moving down one cell unless `legal_down`
fails first. -/
def moveToBottomGo (b : GameBoard) : Nat → Piece → Piece
  | 0, p => p
  | n + 1, p => if p.legal_down b then moveToBottomGo b n { p with y := p.y + 1 } else p

/-- `Piece.move_to_bottom(b)`. -/
def Piece.move_to_bottom (p : Piece) (b : GameBoard) : Piece :=
  moveToBottomGo b (b.rows - 1) p

/-- Python `%` on integers (result has the sign of the modulus; for a positive
modulus this is Euclidean mod). -/
def pymod (a : Int) (n : Nat) : Int := a.emod n

/-- `Piece.rotate_clockwise(b)`: advance the orientation modulo the number of
orientations, then revert if the new orientation is not a valid position. -/
def Piece.rotate_clockwise (p : Piece) (b : GameBoard) : Piece :=
  let q := { p with orientation := (p.orientation + 1) % numOrientations p.shape }
  if ¬ (q.is_valid_position b 0 0 = true) then
    { q with orientation := (pymod ((q.orientation : Int) - 1) (numOrientations p.shape)).toNat }
  else q

/-- `Piece.rotate_counterclockwise(b)`. -/
def Piece.rotate_counterclockwise (p : Piece) (b : GameBoard) : Piece :=
  let q := { p with
    orientation := (pymod ((p.orientation : Int) - 1) (numOrientations p.shape)).toNat }
  if ¬ (q.is_valid_position b 0 0 = true) then
    { q with orientation := (q.orientation + 1) % numOrientations p.shape }
  else q

/-- The template coordinates enumerated by `add_to_board`, `x` outer and `y`
inner, as in the source. -/
def templatePairs : List (Nat × Nat) :=
  (List.range TEMPLATE_WIDTH).flatMap fun x => (List.range TEMPLATE_HEIGHT).map fun y => (x, y)

/-- Python list-index normalisation: a negative index counts from the end. -/
def pyIdx (len : Nat) (i : Int) : Int := if i < 0 then i + len else i

/-- Python `l[i] = v` on a cell list: negative indices wrap once; indices that
CPython would reject (below `-len` or at/after `len`) are modelled as no-ops
(the theorems stay inside the legal range). -/
def pySet (l : List Cell) (i : Int) (v : Cell) : List Cell :=
  if 0 ≤ pyIdx l.length i then l.set (pyIdx l.length i).toNat v else l

/-- Python `state[x][y] = v`: fetch column `x` (with negative-index wrap) and
overwrite its entry `y`. -/
def pyWrite (st : List (List Cell)) (x y : Int) (v : Cell) : List (List Cell) :=
  if 0 ≤ pyIdx st.length x then
    st.set (pyIdx st.length x).toNat (pySet (st.getD (pyIdx st.length x).toNat []) y v)
  else st

/-- One template coordinate of the `add_to_board` double loop: write the
piece's colour if this template cell is occupied. -/
def addStep (p : Piece) (st : List (List Cell)) (xy : Nat × Nat) : List (List Cell) :=
  if !(templateCell p.shape p.orientation xy.2 xy.1 == BLANK) then
    pyWrite st ((xy.1 : Int) + p.x) ((xy.2 : Int) + p.y) (Cell.colour p.colour)
  else st

/-- `Piece.add_to_board(b)`: write the piece's colour into every occupied
coordinate, via raw Python indexing (negative rows wrap to the bottom of the
column). -/
def Piece.add_to_board (p : Piece) (b : GameBoard) : GameBoard :=
  { b with state := templatePairs.foldl (addStep p) b.state }

/-- `calculate_level(score)`. -/
def calculate_level (score : Nat) : Nat := score / LINES_PER_LEVEL + 1

/-- `calculate_fall_frequency(level)`. -/
def calculate_fall_frequency (level : Nat) : ℚ :=
  BASE_FALL_FREQUENCY - level * FALL_FREQUENCY_INCREASE_PER_LEVEL

/-- The random draws of `Piece.__init__`: shape, orientation index and colour
index. -/
structure Draw where
  shape : Shape
  orientation : Nat
  colour : Nat
deriving DecidableEq

/-- Build a piece from a board and a draw, as `Piece(game_board)` does. -/
def mkPiece (b : GameBoard) (d : Draw) : Piece :=
  Piece.init b d.shape d.orientation d.colour

/-- The local state of one invocation of `distractor` that the game loop
reads and writes.  Times are rationals standing for `time.time()` values;
`fall_frequency` is the keyword parameter of `distractor` (never reassigned
in the source). -/
structure SessionState where
  game_board : GameBoard
  falling_piece : Option Piece
  next_piece : Piece
  lines : Nat
  losses : Nat
  moving_down : Bool
  moving_left : Bool
  moving_right : Bool
  last_move_down_time : ℚ
  last_move_sideways_time : ℚ
  last_fall_time : ℚ
  fall_frequency : ℚ
deriving DecidableEq

/-- The state of `distractor` just before entering the `while` loop: counters
zeroed, a fresh board, a fresh falling and next piece, all movement flags
clear, and all timers at the current time `t0`. -/
def distractorInit (fall_frequency : ℚ) (t0 : ℚ) (left top : Int) (cell_size : Nat)
    (columns rows : Nat) (d1 d2 : Draw) : SessionState :=
  let board := GameBoard.init left top cell_size columns rows
  { game_board := board
    falling_piece := some (mkPiece board d1)
    next_piece := mkPiece board d2
    lines := 0
    losses := 0
    moving_down := false
    moving_left := false
    moving_right := false
    last_move_down_time := t0
    last_move_sideways_time := t0
    last_fall_time := t0
    fall_frequency := fall_frequency }

/-- The `if not falling_piece:` block at the top of the game loop: promote the
next piece, draw a fresh next piece (`d1`), and if the promoted piece does not
fit, count a loss, reset the board, clear the movement flags and timers and
spawn a brand-new pair (`d2`, `d3`). -/
def spawnStep (s : SessionState) (now : ℚ) (d1 d2 d3 : Draw) : SessionState :=
  match s.falling_piece with
  | some _ => s
  | none =>
    let falling := s.next_piece
    let next := mkPiece s.game_board d1
    if falling.is_valid_position s.game_board 0 0 then
      { s with falling_piece := some falling, next_piece := next, last_fall_time := now }
    else
      let board := s.game_board.reset
      { s with
        losses := s.losses + 1
        game_board := board
        moving_down := false
        moving_left := false
        moving_right := false
        last_move_down_time := now
        last_move_sideways_time := now
        last_fall_time := now
        falling_piece := some (mkPiece board d2)
        next_piece := mkPiece board d3 }

/-- The gravity block of the game loop
(`if time.time()-last_fall_time > fall_frequency:`): when the interval has
elapsed, either land the piece (merge, clear lines, drop the falling piece) or
move it down one cell and restart the gravity timer.  The loop never reaches
this block without a falling piece, so the `none` case returns the state
unchanged; the `remove_complete_lines` fuel never runs out on the boards the
game builds (see `removeLoop_runs_out_never`). -/
def gravityStep (s : SessionState) (now : ℚ) : SessionState :=
  if now - s.last_fall_time > s.fall_frequency then
    match s.falling_piece with
    | none => s
    | some p =>
      if ¬ (p.legal_down s.game_board = true) then
        let b := p.add_to_board s.game_board
        match b.remove_complete_lines with
        | some (b2, new_lines) =>
          { s with game_board := b2, lines := s.lines + new_lines, falling_piece := none }
        | none => { s with game_board := b, falling_piece := none }
      else
        { s with falling_piece := some p.move_down, last_fall_time := now }
  else s

/-- The gravity interval of the game loop: the threshold that
`time.time() - last_fall_time` is compared against on line
`if time.time()-last_fall_time > fall_frequency:` — the `fall_frequency`
parameter carried in the state. -/
def gravity_interval (s : SessionState) : ℚ := s.fall_frequency

/-- Is some cell of template row `ty` occupied? -/
def rowOccupied (s : Shape) (orientation ty : Nat) : Bool :=
  (List.range TEMPLATE_WIDTH).any fun tx => !(templateCell s orientation ty tx == BLANK)

/-- The largest occupied template row of an orientation grid (0 when the grid
is empty, which for real orientation indices never happens). -/
def maxTemplateRow (s : Shape) (orientation : Nat) : Nat :=
  (List.range TEMPLATE_HEIGHT).foldl (fun m ty => if rowOccupied s orientation ty then ty else m) 0

/-- The board row of the piece's lowest occupied cell. -/
def lowest_occupied_row (p : Piece) : Int :=
  p.y + maxTemplateRow p.shape p.orientation

/-- Iterate `rotate_clockwise` a number of times. -/
def rotate_times (b : GameBoard) (p : Piece) : Nat → Piece
  | 0 => p
  | n + 1 => rotate_times b (p.rotate_clockwise b) n

/-- `is_valid_position` is `True` exactly when every occupied template cell
whose adjusted row is not above the board is on the board and lands on a blank
board cell. -/
theorem is_valid_position_iff (p : Piece) (b : GameBoard) (dx dy : Int) :
    p.is_valid_position b dx dy = true ↔
      ∀ tx, tx < TEMPLATE_WIDTH → ∀ ty, ty < TEMPLATE_HEIGHT →
        templateCell p.shape p.orientation ty tx ≠ BLANK →
        0 ≤ (ty : Int) + p.y + dy →
        (b.is_on_board ((tx : Int) + p.x + dx) ((ty : Int) + p.y + dy) = true ∧
          b.cellI ((tx : Int) + p.x + dx) ((ty : Int) + p.y + dy) = Cell.blank) := by
  unfold Piece.is_valid_position
  rw [List.all_eq_true]
  constructor
  · intro h tx htx ty hty hocc hrow
    have h1 := h tx (List.mem_range.mpr htx)
    rw [List.all_eq_true] at h1
    have h2 := h1 ty (List.mem_range.mpr hty)
    have hg : ¬ ((decide ((ty : Int) + p.y + dy < 0)
        || (templateCell p.shape p.orientation ty tx == BLANK)) = true) := by
      simp only [Bool.or_eq_true, decide_eq_true_eq, beq_iff_eq]
      push_neg
      exact ⟨by omega, hocc⟩
    rw [if_neg hg] at h2
    rw [Bool.and_eq_true] at h2
    exact ⟨h2.1, by simpa [beq_iff_eq] using h2.2⟩
  · intro h tx htx
    rw [List.all_eq_true]
    intro ty hty
    by_cases hg : ((decide (((ty : Nat) : Int) + p.y + dy < 0)
        || (templateCell p.shape p.orientation ty tx == BLANK)) = true)
    · rw [if_pos hg]
    · rw [if_neg hg]
      simp only [Bool.or_eq_true, decide_eq_true_eq, beq_iff_eq] at hg
      push_neg at hg
      have h3 := h tx (List.mem_range.mp htx) ty (List.mem_range.mp hty) hg.2 (by omega)
      simp [h3.1, h3.2]

/-- Claim C2 (code bug): `GameBoard.__init__` ignores its `columns` and `rows`
parameters when setting the attributes, hardcoding `self.columns = 10` and
`self.rows = 20`, while building `state` from the parameters.  Evaluated at
the failing input `GameBoard(0, 0, 1, columns=12, rows=25)`: the state is a
12-by-25 grid but the attributes say 10-by-20, `is_on_board(11, 0)` is false
although column 11 exists, and `reset()` shrinks the state to 10-by-20. -/
theorem claim_C2_code_behaviour :
    (GameBoard.init 0 0 1 12 25).state.length = 12 ∧
    (∀ col ∈ (GameBoard.init 0 0 1 12 25).state, col.length = 25) ∧
    (GameBoard.init 0 0 1 12 25).columns = 10 ∧
    (GameBoard.init 0 0 1 12 25).rows = 20 ∧
    (GameBoard.init 0 0 1 12 25).is_on_board 11 0 = false ∧
    ((11 : Int) < 12) ∧
    (GameBoard.init 0 0 1 12 25).reset.state.length = 10 ∧
    (∀ col ∈ (GameBoard.init 0 0 1 12 25).reset.state, col.length = 20) := by
  refine ⟨by decide, ?_, by decide, by decide, by decide, by decide, by decide, ?_⟩
  · intro col hcol
    rw [List.eq_of_mem_replicate hcol]
    decide
  · intro col hcol
    rw [List.eq_of_mem_replicate hcol]
    decide

/-- Claim C3: `is_valid_position(b, 0, 0)` returns `False` whenever some
occupied template cell at a non-negative board row is off the board or
overlaps an already-coloured board cell. -/
theorem claim_C3 (b : GameBoard) (p : Piece) (tx ty : Nat)
    (htx : tx < TEMPLATE_WIDTH) (hty : ty < TEMPLATE_HEIGHT)
    (hocc : templateCell p.shape p.orientation ty tx ≠ BLANK)
    (hrow : 0 ≤ (ty : Int) + p.y)
    (hviol : b.is_on_board ((tx : Int) + p.x) ((ty : Int) + p.y) = false ∨
      b.cellI ((tx : Int) + p.x) ((ty : Int) + p.y) ≠ Cell.blank) :
    p.is_valid_position b 0 0 = false := by
  cases hv : p.is_valid_position b 0 0 with
  | false => rfl
  | true =>
    exfalso
    have h := (is_valid_position_iff p b 0 0).mp hv tx htx ty hty hocc (by omega)
    simp only [add_zero] at h
    rcases hviol with hoff | hcol
    · rw [h.1] at hoff; exact Bool.noConfusion hoff
    · exact hcol h.2

/-- Board for the C3 and C9 witnesses: an untouched default 10-by-20 board. -/
def boardBlank : GameBoard := GameBoard.init 0 0 20

/-- Piece for the C3 witness: an O piece whose occupied columns are 9 and 10,
one column off the right edge, at non-negative rows. -/
def pieceOffRight : Piece :=
  { shape := Shape.O, x := 8, y := 0, orientation := 0, colour := 0 }

theorem claim_C3_witness :
    templateCell pieceOffRight.shape pieceOffRight.orientation 2 2 ≠ BLANK ∧
    (0 : Int) ≤ (2 : Int) + pieceOffRight.y ∧
    boardBlank.is_on_board ((2 : Int) + pieceOffRight.x) ((2 : Int) + pieceOffRight.y) = false ∧
    pieceOffRight.is_valid_position boardBlank 0 0 = false :=
  ⟨by decide, by decide, by decide,
    claim_C3 boardBlank pieceOffRight 2 2 (by decide) (by decide) (by decide) (by decide)
      (Or.inl (by decide))⟩

/-- Claim C9: cells at negative adjusted rows are skipped entirely by
`is_valid_position`, including the column-bounds check; the position is valid
as soon as every occupied cell at a non-negative row is on the board and
blank. -/
theorem claim_C9 (b : GameBoard) (p : Piece)
    (_hneg : ∃ tx, tx < TEMPLATE_WIDTH ∧ ∃ ty, ty < TEMPLATE_HEIGHT ∧
      templateCell p.shape p.orientation ty tx ≠ BLANK ∧ (ty : Int) + p.y < 0 ∧
      ((tx : Int) + p.x < 0 ∨ (b.columns : Int) ≤ (tx : Int) + p.x))
    (hok : ∀ tx, tx < TEMPLATE_WIDTH → ∀ ty, ty < TEMPLATE_HEIGHT →
      templateCell p.shape p.orientation ty tx ≠ BLANK → 0 ≤ (ty : Int) + p.y →
      b.is_on_board ((tx : Int) + p.x) ((ty : Int) + p.y) = true ∧
      b.cellI ((tx : Int) + p.x) ((ty : Int) + p.y) = Cell.blank) :
    p.is_valid_position b 0 0 = true := by
  rw [is_valid_position_iff]
  intro tx htx ty hty hocc hrow
  have h := hok tx htx ty hty hocc (by omega)
  simpa only [add_zero] using h

/-- Piece for the C9 witness: an O piece far off the left edge and entirely
above the board. -/
def pieceAboveLeft : Piece :=
  { shape := Shape.O, x := -100, y := -4, orientation := 0, colour := 0 }

theorem claim_C9_witness :
    (∃ tx, tx < TEMPLATE_WIDTH ∧ ∃ ty, ty < TEMPLATE_HEIGHT ∧
      templateCell pieceAboveLeft.shape pieceAboveLeft.orientation ty tx ≠ BLANK ∧
      (ty : Int) + pieceAboveLeft.y < 0 ∧
      ((tx : Int) + pieceAboveLeft.x < 0 ∨
        (boardBlank.columns : Int) ≤ (tx : Int) + pieceAboveLeft.x)) ∧
    pieceAboveLeft.is_valid_position boardBlank 0 0 = true :=
  ⟨⟨1, by decide, 2, by decide, by decide, by decide, Or.inl (by decide)⟩,
    claim_C9 boardBlank pieceAboveLeft
      ⟨1, by decide, 2, by decide, by decide, by decide, Or.inl (by decide)⟩
      (by decide)⟩

/-- A fixed draw for concrete session states. -/
def drawO : Draw := { shape := Shape.O, orientation := 0, colour := 0 }

/-- Claim C1, counterexample: with the default arguments of `distractor`
(`fall_frequency = 0.3`), the gravity interval of the loop is not
`base_interval - level * per_level_decrement` (which is `0.34` at
`lines_cleared = 0`), and it does not change when the lines-cleared total
crosses 10. -/
theorem claim_C1_counterexample :
    gravity_interval (distractorInit (3 / 10) 0 0 0 20 10 20 drawO drawO) ≠
      calculate_fall_frequency (calculate_level
        (distractorInit (3 / 10) 0 0 0 20 10 20 drawO drawO).lines) ∧
    gravity_interval { distractorInit (3 / 10) 0 0 0 20 10 20 drawO drawO with lines := 10 } =
      gravity_interval (distractorInit (3 / 10) 0 0 0 20 10 20 drawO drawO) := by
  constructor
  · show (3 / 10 : ℚ) ≠ calculate_fall_frequency (calculate_level 0)
    norm_num [calculate_fall_frequency, calculate_level, BASE_FALL_FREQUENCY,
      FALL_FREQUENCY_INCREASE_PER_LEVEL, LINES_PER_LEVEL]
  · rfl

/-- Claim C1, amended: the gravity interval of the session loop is the
`fall_frequency` parameter of `distractor`, set once before the loop and never
changed by a loop step, regardless of the lines-cleared total; the
level/interval formulas exist in the module as `calculate_level` and
`calculate_fall_frequency` but the loop never invokes them. -/
theorem claim_C1_amended :
    (∀ s now, gravity_interval (gravityStep s now) = gravity_interval s) ∧
    (∀ s now d1 d2 d3, gravity_interval (spawnStep s now d1 d2 d3) = gravity_interval s) ∧
    (∀ ff t0 l t cs c r d1 d2, gravity_interval (distractorInit ff t0 l t cs c r d1 d2) = ff) ∧
    (∀ score, calculate_level score = score / 10 + 1) ∧
    (∀ level, calculate_fall_frequency level = 35 / 100 - level * (1 / 100)) := by
  refine ⟨?_, ?_, fun _ _ _ _ _ _ _ _ _ => rfl, fun _ => rfl, fun _ => rfl⟩
  · intro s now
    unfold gravityStep gravity_interval
    split
    · split
      · rfl
      · split
        · dsimp only
          split <;> rfl
        · rfl
    · rfl
  · intro s now d1 d2 d3
    unfold spawnStep gravity_interval
    split
    · rfl
    · dsimp only
      split <;> rfl

/-- Claim C4: when the newly promoted falling piece does not fit at its spawn
location, the spawn block counts exactly one loss, resets the board (leaving
every cell blank), clears the three movement flags and the three timers, and
spawns a brand-new falling and next piece, returning a state the loop
continues from. -/
theorem claim_C4 (s : SessionState) (now : ℚ) (d1 d2 d3 : Draw)
    (hnone : s.falling_piece = none)
    (hblocked : s.next_piece.is_valid_position s.game_board 0 0 = false) :
    (spawnStep s now d1 d2 d3).losses = s.losses + 1 ∧
    (spawnStep s now d1 d2 d3).game_board = s.game_board.reset ∧
    (∀ col ∈ (spawnStep s now d1 d2 d3).game_board.state, ∀ c ∈ col, c = Cell.blank) ∧
    (spawnStep s now d1 d2 d3).moving_down = false ∧
    (spawnStep s now d1 d2 d3).moving_left = false ∧
    (spawnStep s now d1 d2 d3).moving_right = false ∧
    (spawnStep s now d1 d2 d3).last_move_down_time = now ∧
    (spawnStep s now d1 d2 d3).last_move_sideways_time = now ∧
    (spawnStep s now d1 d2 d3).last_fall_time = now ∧
    (spawnStep s now d1 d2 d3).falling_piece = some (mkPiece s.game_board.reset d2) ∧
    (spawnStep s now d1 d2 d3).next_piece = mkPiece s.game_board.reset d3 ∧
    (spawnStep s now d1 d2 d3).lines = s.lines := by
  have hstep : spawnStep s now d1 d2 d3 =
      { s with
        losses := s.losses + 1
        game_board := s.game_board.reset
        moving_down := false
        moving_left := false
        moving_right := false
        last_move_down_time := now
        last_move_sideways_time := now
        last_fall_time := now
        falling_piece := some (mkPiece s.game_board.reset d2)
        next_piece := mkPiece s.game_board.reset d3 } := by
    unfold spawnStep
    rw [hnone]
    rw [if_neg (by simp [hblocked])]
  rw [hstep]
  refine ⟨rfl, rfl, ?_, rfl, rfl, rfl, rfl, rfl, rfl, rfl, rfl, rfl⟩
  intro col hcol c hc
  rw [List.eq_of_mem_replicate hcol] at hc
  exact List.eq_of_mem_replicate hc

/-- A board whose every cell is coloured, blocking any spawn. -/
def fullBoard : GameBoard :=
  { columns := 10
    rows := 20
    state := List.replicate 10 (List.replicate 20 (Cell.colour 0))
    left := 0
    top := 0
    cell_size := 1 }

/-- A session state waiting to promote a piece onto the full board. -/
def sBlocked : SessionState :=
  { game_board := fullBoard
    falling_piece := none
    next_piece := mkPiece fullBoard drawO
    lines := 3
    losses := 7
    moving_down := true
    moving_left := true
    moving_right := true
    last_move_down_time := 5
    last_move_sideways_time := 5
    last_fall_time := 5
    fall_frequency := 3 / 10 }

theorem claim_C4_witness :
    sBlocked.falling_piece = none ∧
    sBlocked.next_piece.is_valid_position sBlocked.game_board 0 0 = false ∧
    ((spawnStep sBlocked 9 drawO drawO drawO).losses = sBlocked.losses + 1 ∧
      (spawnStep sBlocked 9 drawO drawO drawO).game_board = sBlocked.game_board.reset ∧
      (∀ col ∈ (spawnStep sBlocked 9 drawO drawO drawO).game_board.state,
        ∀ c ∈ col, c = Cell.blank) ∧
      (spawnStep sBlocked 9 drawO drawO drawO).moving_down = false ∧
      (spawnStep sBlocked 9 drawO drawO drawO).moving_left = false ∧
      (spawnStep sBlocked 9 drawO drawO drawO).moving_right = false ∧
      (spawnStep sBlocked 9 drawO drawO drawO).last_move_down_time = 9 ∧
      (spawnStep sBlocked 9 drawO drawO drawO).last_move_sideways_time = 9 ∧
      (spawnStep sBlocked 9 drawO drawO drawO).last_fall_time = 9 ∧
      (spawnStep sBlocked 9 drawO drawO drawO).falling_piece =
        some (mkPiece sBlocked.game_board.reset drawO) ∧
      (spawnStep sBlocked 9 drawO drawO drawO).next_piece =
        mkPiece sBlocked.game_board.reset drawO ∧
      (spawnStep sBlocked 9 drawO drawO drawO).lines = sBlocked.lines) :=
  ⟨rfl, by decide, claim_C4 sBlocked 9 drawO drawO drawO rfl (by decide)⟩

/-- When the advanced orientation is a valid position, `rotate_clockwise`
keeps it (no revert). -/
theorem rotate_clockwise_eq_of_valid (b : GameBoard) (q : Piece)
    (h : Piece.is_valid_position
      { q with orientation := (q.orientation + 1) % numOrientations q.shape } b 0 0 = true) :
    q.rotate_clockwise b =
      { q with orientation := (q.orientation + 1) % numOrientations q.shape } := by
  unfold Piece.rotate_clockwise
  dsimp only
  rw [if_neg (fun hc => hc h)]

/-- Iterating `rotate_clockwise` while every intermediate orientation is a
valid position adds one to the orientation index modulo the orientation count
at each step. -/
theorem rotate_times_no_revert (b : GameBoard) (p : Piece) (m : Nat) :
    ∀ j : Nat, j + m ≤ numOrientations p.shape →
      (∀ k, 1 ≤ k → k ≤ numOrientations p.shape →
        Piece.is_valid_position
          { p with orientation := (p.orientation + k) % numOrientations p.shape } b 0 0
          = true) →
      rotate_times b { p with orientation := (p.orientation + j) % numOrientations p.shape } m
        = { p with orientation := (p.orientation + j + m) % numOrientations p.shape } := by
  induction m with
  | zero =>
    intro j _ _
    rfl
  | succ m ih =>
    intro j hle hvalid
    have hmod : ((p.orientation + j) % numOrientations p.shape + 1) % numOrientations p.shape
        = (p.orientation + (j + 1)) % numOrientations p.shape := by
      rw [Nat.mod_add_mod, Nat.add_assoc]
    have hrot : ({ p with orientation := (p.orientation + j) % numOrientations p.shape }
          : Piece).rotate_clockwise b
        = { p with orientation := (p.orientation + (j + 1)) % numOrientations p.shape } := by
      have hstep := rotate_clockwise_eq_of_valid b
        { p with orientation := (p.orientation + j) % numOrientations p.shape }
        (by
          show Piece.is_valid_position
            { p with orientation :=
                ((p.orientation + j) % numOrientations p.shape + 1) % numOrientations p.shape }
            b 0 0 = true
          rw [hmod]
          exact hvalid (j + 1) (by omega) (by omega))
      rw [hstep]
      show ({ p with orientation :=
          ((p.orientation + j) % numOrientations p.shape + 1) % numOrientations p.shape }
        : Piece) = _
      rw [hmod]
    calc rotate_times b
          { p with orientation := (p.orientation + j) % numOrientations p.shape } (m + 1)
        = rotate_times b
            (({ p with orientation := (p.orientation + j) % numOrientations p.shape }
              : Piece).rotate_clockwise b) m := rfl
      _ = rotate_times b
            { p with orientation := (p.orientation + (j + 1)) % numOrientations p.shape } m := by
          rw [hrot]
      _ = { p with orientation :=
            (p.orientation + (j + 1) + m) % numOrientations p.shape } :=
          ih (j + 1) (by omega) hvalid
      _ = { p with orientation :=
            (p.orientation + j + (m + 1)) % numOrientations p.shape } := by
          have harith : p.orientation + (j + 1) + m = p.orientation + j + (m + 1) := by omega
          rw [harith]

/-- Claim C7: with every intermediate orientation valid at the piece's
position, applying `rotate_clockwise` as many times as the shape has
orientations returns the piece to its original orientation index (and leaves
the piece entirely unchanged). -/
theorem claim_C7 (b : GameBoard) (p : Piece)
    (hor : p.orientation < numOrientations p.shape)
    (hvalid : ∀ k, 1 ≤ k → k ≤ numOrientations p.shape →
      Piece.is_valid_position
        { p with orientation := (p.orientation + k) % numOrientations p.shape } b 0 0
        = true) :
    rotate_times b p (numOrientations p.shape) = p := by
  have h0 : ({ p with orientation := (p.orientation + 0) % numOrientations p.shape }
      : Piece) = p := by
    have he : (p.orientation + 0) % numOrientations p.shape = p.orientation := by
      rw [Nat.add_zero, Nat.mod_eq_of_lt hor]
    rw [he]
  have h := rotate_times_no_revert b p (numOrientations p.shape) 0 (by omega) hvalid
  rw [h0] at h
  rw [h]
  have he2 : (p.orientation + 0 + numOrientations p.shape) % numOrientations p.shape
      = p.orientation := by
    rw [Nat.add_zero, Nat.add_mod_right, Nat.mod_eq_of_lt hor]
  rw [he2]

/-- Piece for the C7 witness: a J piece at its spawn position over the blank
board, where all four orientations are valid. -/
def pieceJ : Piece := mkPiece boardBlank { shape := Shape.J, orientation := 0, colour := 0 }

theorem claim_C7_witness :
    pieceJ.orientation < numOrientations pieceJ.shape ∧
    (∀ k, 1 ≤ k → k ≤ numOrientations pieceJ.shape →
      Piece.is_valid_position
        { pieceJ with orientation := (pieceJ.orientation + k) % numOrientations pieceJ.shape }
        boardBlank 0 0 = true) ∧
    rotate_times boardBlank pieceJ (numOrientations pieceJ.shape) = pieceJ := by
  have hv : ∀ k, 1 ≤ k → k ≤ numOrientations pieceJ.shape →
      Piece.is_valid_position
        { pieceJ with orientation := (pieceJ.orientation + k) % numOrientations pieceJ.shape }
        boardBlank 0 0 = true := by
    intro k h1 h2
    have h4 : k ≤ 4 := h2
    interval_cases k <;> decide
  exact ⟨by decide, hv, claim_C7 boardBlank pieceJ (by decide) hv⟩

/-- `pullColumn` preserves the column length. -/
theorem length_pullColumn (y : Nat) (col : List Cell) :
    (pullColumn y col).length = col.length := by
  simp [pullColumn]

/-- Entrywise description of `pullColumn`. -/
theorem getD_pullColumn (y : Nat) (col : List Cell) (r : Nat) (h : r < col.length) :
    (pullColumn y col).getD r Cell.blank =
      if r = 0 then Cell.blank
      else if r ≤ y then col.getD (r - 1) Cell.blank
      else col.getD r Cell.blank := by
  unfold pullColumn
  rw [List.getD_eq_getElem _ _ (by simpa using h)]
  simp

/-- `pullColumn` at an in-range row is a blank consed onto the column with the
row removed. -/
theorem pullColumn_eq_cons (y : Nat) (col : List Cell) (h : y < col.length) :
    pullColumn y col = Cell.blank :: (col.take y ++ col.drop (y + 1)) := by
  apply List.ext_getElem
  · simp [pullColumn]
    omega
  · intro i h1 h2
    have hlen : i < col.length := by simpa [pullColumn] using h1
    rcases Nat.eq_zero_or_pos i with hi | hi
    · subst hi
      simp [pullColumn]
    · obtain ⟨j, rfl⟩ : ∃ j, i = j + 1 := ⟨i - 1, by omega⟩
      have hL : (pullColumn y col)[j + 1] =
          if j + 1 ≤ y then col.getD j Cell.blank else col.getD (j + 1) Cell.blank := by
        simp [pullColumn]
      rw [hL]
      rw [List.getElem_cons_succ]
      rcases Nat.lt_or_ge j y with hj | hj
      · have hjtake : j < (col.take y).length := by simp; omega
        rw [List.getElem_append_left hjtake]
        rw [if_pos (by omega), List.getD_eq_getElem _ _ (by omega)]
        simp
      · have hjtake : (col.take y).length ≤ j := by simp; omega
        rw [List.getElem_append_right hjtake]
        rw [if_neg (by omega), List.getD_eq_getElem _ _ (by simpa using hlen)]
        have htk : (col.take y).length = y := by simp; omega
        simp only [List.getElem_drop, htk]
        congr 1
        omega

/-- Removing a coloured row from a column lowers its coloured count by one. -/
theorem countP_pullColumn (y : Nat) (col : List Cell)
    (h : col.getD y Cell.blank ≠ Cell.blank) :
    (pullColumn y col).countP (fun c => !(c == Cell.blank)) + 1
      = col.countP (fun c => !(c == Cell.blank)) := by
  have hy : y < col.length := by
    by_contra hge
    exact h (List.getD_eq_default _ _ (by omega))
  rw [pullColumn_eq_cons y col hy]
  have hhead : col.drop y = col[y] :: col.drop (y + 1) := List.drop_eq_getElem_cons hy
  have hcolsplit : col.countP (fun c => !(c == Cell.blank)) =
      (col.take y).countP (fun c => !(c == Cell.blank))
        + ((col[y] :: col.drop (y + 1)).countP (fun c => !(c == Cell.blank))) := by
    conv_lhs => rw [← List.take_append_drop y col, hhead]
    rw [List.countP_append]
  have hcy : (!(col[y] == Cell.blank)) = true := by
    rw [List.getD_eq_getElem _ _ hy] at h
    simpa using h
  have e1 : List.countP (fun c => !(c == Cell.blank))
        (Cell.blank :: (col.take y ++ col.drop (y + 1)))
      = List.countP (fun c => !(c == Cell.blank)) (col.take y)
        + List.countP (fun c => !(c == Cell.blank)) (col.drop (y + 1)) := by
    rw [List.countP_cons, List.countP_append]
    simp
  have e2 : List.countP (fun c => !(c == Cell.blank)) (col[y] :: col.drop (y + 1))
      = List.countP (fun c => !(c == Cell.blank)) (col.drop (y + 1)) + 1 := by
    rw [List.countP_cons]
    simp [hcy]
  rw [e1, hcolsplit, e2]
  omega

/-- Coloured count of a concatenation. -/
theorem coloredCount_append (a b : List (List Cell)) :
    coloredCount (a ++ b) = coloredCount a + coloredCount b := by
  simp [coloredCount]

/-- Mapping `pullColumn` over columns that are all coloured at row `y` lowers
the coloured count by the number of columns. -/
theorem coloredCount_map_pullColumn (y : Nat) :
    ∀ l : List (List Cell), (∀ col ∈ l, col.getD y Cell.blank ≠ Cell.blank) →
      coloredCount (l.map (pullColumn y)) + l.length = coloredCount l := by
  intro l
  induction l with
  | nil => intro _; simp [coloredCount]
  | cons col l ih =>
    intro h
    have h3 := countP_pullColumn y col (h col (by simp))
    have h4 := ih (fun c hc => h c (by simp [hc]))
    have e1 : coloredCount ((col :: l).map (pullColumn y))
        = (pullColumn y col).countP (fun c => !(c == Cell.blank))
          + coloredCount (l.map (pullColumn y)) := by
      simp [coloredCount]
    have e2 : coloredCount (col :: l)
        = col.countP (fun c => !(c == Cell.blank)) + coloredCount l := by
      simp [coloredCount]
    rw [e1, e2, List.length_cons]
    omega

/-- `is_complete_line` holds exactly when every cell of the row among the
first `columns` columns is coloured. -/
theorem is_complete_line_eq_true_iff (b : GameBoard) (y : Nat) :
    b.is_complete_line y = true ↔ ∀ x, x < b.columns → b.cellAt x y ≠ Cell.blank := by
  unfold GameBoard.is_complete_line
  rw [List.all_eq_true]
  constructor
  · intro h x hx
    simpa using h x (List.mem_range.mpr hx)
  · intro h x hx
    simpa using h x (List.mem_range.mp hx)

/-- `shiftDown` keeps the `columns` attribute. -/
theorem shiftDown_columns (b : GameBoard) (y : Nat) : (b.shiftDown y).columns = b.columns := rfl

/-- `shiftDown` keeps the `rows` attribute. -/
theorem shiftDown_rows (b : GameBoard) (y : Nat) : (b.shiftDown y).rows = b.rows := rfl

/-- On a well-formed board the pull-down loop rewrites every column. -/
theorem shiftDown_state_of_wf (b : GameBoard) (y : Nat) (hwf : WF b) :
    (b.shiftDown y).state = b.state.map (pullColumn y) := by
  show (b.state.take b.columns).map (pullColumn y) ++ b.state.drop b.columns = _
  rw [← hwf.1, List.take_length, List.drop_length, List.append_nil]

/-- `shiftDown` preserves well-formedness. -/
theorem WF_shiftDown (b : GameBoard) (y : Nat) (hwf : WF b) : WF (b.shiftDown y) := by
  constructor
  · rw [shiftDown_state_of_wf b y hwf, List.length_map, shiftDown_columns]
    exact hwf.1
  · intro col hcol
    rw [shiftDown_state_of_wf b y hwf] at hcol
    obtain ⟨c, hc, rfl⟩ := List.mem_map.mp hcol
    rw [shiftDown_rows, length_pullColumn]
    exact hwf.2 c hc

/-- Entrywise description of `shiftDown` on a well-formed board. -/
theorem cellAt_shiftDown (b : GameBoard) (y : Nat) (hwf : WF b) (x r : Nat)
    (hx : x < b.columns) (hr : r < b.rows) :
    (b.shiftDown y).cellAt x r =
      if r = 0 then Cell.blank
      else if r ≤ y then b.cellAt x (r - 1)
      else b.cellAt x r := by
  have hxlen : x < b.state.length := by rw [hwf.1]; exact hx
  have hlen : b.state[x].length = b.rows := hwf.2 _ (List.getElem_mem hxlen)
  unfold GameBoard.cellAt
  rw [shiftDown_state_of_wf b y hwf]
  have hmap : (b.state.map (pullColumn y)).getD x [] = pullColumn y b.state[x] := by
    rw [List.getD_eq_getElem _ _ (by simpa using hxlen), List.getElem_map]
  rw [hmap, getD_pullColumn _ _ _ (by omega), List.getD_eq_getElem _ _ hxlen]

/-- Compacting a complete line removes exactly `columns` coloured cells. -/
theorem coloredCount_shiftDown (b : GameBoard) (y : Nat)
    (hcomp : b.is_complete_line y = true) :
    coloredCount (b.shiftDown y).state + b.columns = coloredCount b.state := by
  have hall := (is_complete_line_eq_true_iff b y).mp hcomp
  have hlen : b.columns ≤ b.state.length := by
    by_contra hlt
    push_neg at hlt
    have h1 := hall b.state.length hlt
    unfold GameBoard.cellAt at h1
    rw [List.getD_eq_default _ _ (Nat.le_refl _), List.getD_nil] at h1
    exact h1 rfl
  have htake : ∀ col ∈ b.state.take b.columns, col.getD y Cell.blank ≠ Cell.blank := by
    intro col hmem
    obtain ⟨i, hi, hcol⟩ := List.mem_iff_getElem.mp hmem
    have hi2 : i < b.columns := by simp at hi; omega
    have hilen : i < b.state.length := by simp at hi; omega
    have h1 := hall i hi2
    unfold GameBoard.cellAt at h1
    rw [List.getD_eq_getElem _ _ hilen] at h1
    have hcol2 : b.state[i] = col := by rw [← hcol]; simp
    rw [hcol2] at h1
    exact h1
  have hstate : (b.shiftDown y).state
      = (b.state.take b.columns).map (pullColumn y) ++ b.state.drop b.columns := rfl
  rw [hstate, coloredCount_append]
  have hmap := coloredCount_map_pullColumn y (b.state.take b.columns) htake
  have htlen : (b.state.take b.columns).length = b.columns := by simp; omega
  have hsplit : coloredCount b.state
      = coloredCount (b.state.take b.columns) + coloredCount (b.state.drop b.columns) := by
    conv_lhs => rw [← List.take_append_drop b.columns b.state]
    rw [coloredCount_append]
  omega

/-- The `while` loop of `remove_complete_lines` finishes within any fuel
exceeding the coloured-cell count plus the remaining rows, and the number of
removed lines is bounded by the coloured count. -/
theorem removeLoop_terminates : ∀ (fuel : Nat) (b : GameBoard) (y : Int) (lines : Nat),
    0 < b.columns → coloredCount b.state + (y + 1).toNat < fuel →
    ∃ b2 n, removeLoop fuel b y lines = some (b2, lines + n) ∧
      n * b.columns ≤ coloredCount b.state := by
  intro fuel
  induction fuel with
  | zero =>
    intro b y lines _ hf
    exact (Nat.not_lt_zero _ hf).elim
  | succ fuel ih =>
    intro b y lines hc hf
    by_cases hy : y < 0
    · refine ⟨b, 0, ?_, by omega⟩
      simp only [removeLoop]
      rw [if_pos hy, Nat.add_zero]
    · by_cases hcomp : b.is_complete_line y.toNat = true
      · have hdec := coloredCount_shiftDown b y.toNat hcomp
        have hcols : (b.shiftDown y.toNat).columns = b.columns := rfl
        obtain ⟨b2, n, heq, hb⟩ := ih (b.shiftDown y.toNat) y (lines + 1)
          (by rw [hcols]; exact hc) (by omega)
        refine ⟨b2, n + 1, ?_, ?_⟩
        · simp only [removeLoop]
          rw [if_neg hy, if_pos hcomp, heq]
          have harith : lines + 1 + n = lines + (n + 1) := by omega
          rw [harith]
        · rw [hcols] at hb
          rw [Nat.succ_mul]
          omega
      · obtain ⟨b2, n, heq, hb⟩ := ih b (y - 1) lines hc (by omega)
        refine ⟨b2, n, ?_, hb⟩
        simp only [removeLoop]
        rw [if_neg hy, if_neg hcomp]
        exact heq

/-- The fuel chosen in `remove_complete_lines` is always sufficient: the loop
never runs out on a board with at least one column. -/
theorem removeLoop_runs_out_never (b : GameBoard) (hc : 0 < b.columns) :
    ∃ b2 n, b.remove_complete_lines = some (b2, n) := by
  obtain ⟨b2, n, heq, _⟩ := removeLoop_terminates (coloredCount b.state + b.rows + 1) b
    ((b.rows : Int) - 1) 0 hc (by omega)
  exact ⟨b2, n, by unfold GameBoard.remove_complete_lines; rw [heq, Nat.zero_add]⟩

/-- On a well-formed board the coloured count is at most `columns * rows`. -/
theorem coloredCount_le (b : GameBoard) (hwf : WF b) :
    coloredCount b.state ≤ b.columns * b.rows := by
  have hb1 : ∀ x ∈ b.state.map (fun col => col.countP fun c => !(c == Cell.blank)),
      x ≤ b.rows := by
    intro x hx
    obtain ⟨col, hcol, rfl⟩ := List.mem_map.mp hx
    calc col.countP (fun c => !(c == Cell.blank)) ≤ col.length := List.countP_le_length _
      _ = b.rows := hwf.2 col hcol
  have h2 := List.sum_le_card_nsmul _ b.rows hb1
  rw [List.length_map, hwf.1, smul_eq_mul] at h2
  exact h2

/-- Claim C10: on a well-formed board with at least one column,
`remove_complete_lines` terminates with a count between 0 and `rows`, because
compacting a complete line strictly lowers the coloured-cell count. -/
theorem claim_C10 (b : GameBoard) (hwf : WF b) (hc : 0 < b.columns) :
    (∃ b2 n, b.remove_complete_lines = some (b2, n) ∧ n ≤ b.rows) ∧
    (∀ r, r < b.rows → b.is_complete_line r = true →
      coloredCount (b.shiftDown r).state < coloredCount b.state) := by
  constructor
  · obtain ⟨b2, n, heq, hb⟩ := removeLoop_terminates (coloredCount b.state + b.rows + 1) b
      ((b.rows : Int) - 1) 0 hc (by omega)
    refine ⟨b2, n, by unfold GameBoard.remove_complete_lines; rw [heq, Nat.zero_add], ?_⟩
    have hbound := coloredCount_le b hwf
    have hcr : n * b.columns ≤ b.columns * b.rows := le_trans hb hbound
    rw [Nat.mul_comm b.columns b.rows] at hcr
    exact Nat.le_of_mul_le_mul_right hcr hc
  · intro r _ hcomp
    have := coloredCount_shiftDown b r hcomp
    omega

theorem claim_C10_witness :
    WF boardBlank ∧ 0 < boardBlank.columns ∧
      ((∃ b2 n, boardBlank.remove_complete_lines = some (b2, n) ∧ n ≤ boardBlank.rows) ∧
        (∀ r, r < boardBlank.rows → boardBlank.is_complete_line r = true →
          coloredCount (boardBlank.shiftDown r).state < coloredCount boardBlank.state)) :=
  ⟨by decide, by decide, claim_C10 boardBlank (by decide) (by decide)⟩

/-- Walking the loop down across incomplete rows leaves the board unchanged
and consumes one unit of fuel per row. -/
theorem removeLoop_walk (b : GameBoard) (lines : Nat) :
    ∀ (m fuel : Nat) (y : Int), 0 ≤ y →
      (∀ r : Nat, y < (r : Int) → (r : Int) ≤ y + (m : Int) → b.is_complete_line r = false) →
      removeLoop (fuel + m) b (y + (m : Int)) lines = removeLoop fuel b y lines := by
  intro m
  induction m with
  | zero =>
    intro fuel y _ _
    norm_num
  | succ m ih =>
    intro fuel y hy hincomp
    have hstep : fuel + (m + 1) = (fuel + m) + 1 := rfl
    rw [hstep]
    simp only [removeLoop]
    have hcast : y + ((m + 1 : Nat) : Int) = (y + (m : Int)) + 1 := by push_cast; ring
    rw [hcast]
    rw [if_neg (by omega)]
    have hr := hincomp (y + (m : Int) + 1).toNat (by omega) (by push_cast; omega)
    rw [if_neg (by simp [hr])]
    have he : y + (m : Int) + 1 - 1 = y + (m : Int) := by ring
    rw [he]
    exact ih fuel y hy (fun r h1 h2 => hincomp r h1 (by push_cast at h2 ⊢; omega))

/-- Once every remaining row is incomplete, the loop walks to `-1` and stops
with the board unchanged. -/
theorem removeLoop_descend (b : GameBoard) (lines : Nat) :
    ∀ (n fuel : Nat), (∀ r : Nat, (r : Int) ≤ (n : Int) - 1 → b.is_complete_line r = false) →
      n < fuel → removeLoop fuel b ((n : Int) - 1) lines = some (b, lines) := by
  intro n
  induction n with
  | zero =>
    intro fuel _ hf
    obtain ⟨f, rfl⟩ : ∃ f, fuel = f + 1 := ⟨fuel - 1, by omega⟩
    simp only [removeLoop]
    rw [if_pos (by omega)]
  | succ n ih =>
    intro fuel hincomp hf
    obtain ⟨f, rfl⟩ : ∃ f, fuel = f + 1 := ⟨fuel - 1, by omega⟩
    simp only [removeLoop]
    rw [if_neg (by omega)]
    have he2 : (((n + 1 : Nat) : Int) - 1).toNat = n := by omega
    rw [he2]
    have hr := hincomp n (by push_cast; omega)
    rw [if_neg (by simp [hr])]
    have he : ((n + 1 : Nat) : Int) - 1 - 1 = (n : Int) - 1 := by push_cast; ring
    rw [he]
    exact ih f (fun r hrr => hincomp r (by omega)) (by omega)

/-- Claim C5: on a well-formed board whose only complete row is `y`,
`remove_complete_lines` returns 1, having shifted every row above `y` down by
one, left the rows below `y` unchanged, and blanked the top row. -/
theorem claim_C5 (b : GameBoard) (y : Nat) (hwf : WF b) (hc : 0 < b.columns)
    (hy : y < b.rows) (hcomp : b.is_complete_line y = true)
    (hother : ∀ r, r < b.rows → r ≠ y → b.is_complete_line r = false) :
    b.remove_complete_lines = some (b.shiftDown y, 1) ∧
    (∀ x, x < b.columns → (b.shiftDown y).cellAt x 0 = Cell.blank) ∧
    (∀ x, x < b.columns → ∀ r, r ≤ y → 0 < r →
      (b.shiftDown y).cellAt x r = b.cellAt x (r - 1)) ∧
    (∀ x, x < b.columns → ∀ r, r < b.rows → y < r →
      (b.shiftDown y).cellAt x r = b.cellAt x r) := by
  have hcount : 0 < coloredCount b.state := by
    have := coloredCount_shiftDown b y hcomp
    omega
  have hshift_incomp : ∀ r : Nat, (r : Int) ≤ ((y + 1 : Nat) : Int) - 1 →
      (b.shiftDown y).is_complete_line r = false := by
    intro r hr
    have hry : r ≤ y := by omega
    have hrrows : r < b.rows := by omega
    rw [Bool.eq_false_iff]
    intro habs
    have hall := (is_complete_line_eq_true_iff _ r).mp habs
    rcases Nat.eq_zero_or_pos r with h0 | hpos
    · subst h0
      have h1 := hall 0 hc
      rw [cellAt_shiftDown b y hwf 0 0 hc hrrows] at h1
      simp at h1
    · have hcompb : b.is_complete_line (r - 1) = true := by
        rw [is_complete_line_eq_true_iff]
        intro x hxc
        have h2 := hall x hxc
        rw [cellAt_shiftDown b y hwf x r hxc hrrows, if_neg (by omega), if_pos hry] at h2
        exact h2
      have h3 := hother (r - 1) (by omega) (by omega)
      rw [hcompb] at h3
      exact Bool.noConfusion h3
  refine ⟨?_, ?_, ?_, ?_⟩
  · unfold GameBoard.remove_complete_lines
    have hm : coloredCount b.state + b.rows + 1
        = (coloredCount b.state + y + 2) + (b.rows - 1 - y) := by omega
    have hyint : ((b.rows : Int) - 1) = (y : Int) + ((b.rows - 1 - y : Nat) : Int) := by omega
    rw [hm, hyint]
    rw [removeLoop_walk b 0 (b.rows - 1 - y) (coloredCount b.state + y + 2) (y : Int)
      (by omega) (fun r h1 h2 => hother r (by omega) (by omega))]
    have hfu : coloredCount b.state + y + 2 = (coloredCount b.state + y + 1) + 1 := rfl
    rw [hfu]
    simp only [removeLoop]
    rw [if_neg (by omega)]
    have hty : ((y : Int)).toNat = y := by omega
    rw [hty, if_pos hcomp]
    have hdesc := removeLoop_descend (b.shiftDown y) 1 (y + 1)
      (coloredCount b.state + y + 1) hshift_incomp (by omega)
    have hcast : ((y + 1 : Nat) : Int) - 1 = (y : Int) := by push_cast; ring
    rw [hcast] at hdesc
    exact hdesc
  · intro x hx
    rw [cellAt_shiftDown b y hwf x 0 hx (by omega)]
    simp
  · intro x hx r hr hpos
    rw [cellAt_shiftDown b y hwf x r hx (by omega), if_neg (by omega), if_pos hr]
  · intro x hx r hr hgt
    rw [cellAt_shiftDown b y hwf x r hx hr, if_neg (by omega), if_neg (by omega)]

/-- Board for the C5 witness: row 19 fully coloured, row 18 coloured in nine
of ten columns, everything else blank. -/
def boardOneLine : GameBoard :=
  { columns := 10
    rows := 20
    state := (List.range 10).map fun x =>
      (List.range 20).map fun r =>
        if r = 19 then Cell.colour 1
        else if r = 18 ∧ x < 9 then Cell.colour 2
        else Cell.blank
    left := 0
    top := 0
    cell_size := 1 }

theorem claim_C5_witness :
    WF boardOneLine ∧ boardOneLine.is_complete_line 19 = true ∧
    (∀ r, r < boardOneLine.rows → r ≠ 19 → boardOneLine.is_complete_line r = false) ∧
    (boardOneLine.remove_complete_lines = some (boardOneLine.shiftDown 19, 1) ∧
      (∀ x, x < boardOneLine.columns → (boardOneLine.shiftDown 19).cellAt x 0 = Cell.blank) ∧
      (∀ x, x < boardOneLine.columns → ∀ r, r ≤ 19 → 0 < r →
        (boardOneLine.shiftDown 19).cellAt x r = boardOneLine.cellAt x (r - 1)) ∧
      (∀ x, x < boardOneLine.columns → ∀ r, r < boardOneLine.rows → 19 < r →
        (boardOneLine.shiftDown 19).cellAt x r = boardOneLine.cellAt x r)) :=
  ⟨by decide, by decide, by decide,
    claim_C5 boardOneLine 19 (by decide) (by decide) (by decide) (by decide) (by decide)⟩

/-- A template row is occupied exactly when some cell in it is not blank. -/
theorem rowOccupied_iff (s : Shape) (o ty : Nat) :
    rowOccupied s o ty = true ↔
      ∃ tx, tx < TEMPLATE_WIDTH ∧ templateCell s o ty tx ≠ BLANK := by
  unfold rowOccupied
  rw [List.any_eq_true]
  constructor
  · rintro ⟨tx, hmem, hocc⟩
    exact ⟨tx, List.mem_range.mp hmem, by simpa using hocc⟩
  · rintro ⟨tx, htx, hocc⟩
    exact ⟨tx, List.mem_range.mpr htx, by simpa using hocc⟩

/-- Catalogue check: every real orientation grid has its lowest occupied
template row between rows 2 and 4. -/
theorem maxTemplateRow_spec : ∀ (s : Shape) (o : Nat), o < numOrientations s →
    2 ≤ maxTemplateRow s o ∧ rowOccupied s o (maxTemplateRow s o) = true ∧
    maxTemplateRow s o < TEMPLATE_HEIGHT := by
  intro s o ho
  cases s
  all_goals first
    | (have h2 : o < 1 := ho
       interval_cases o
       decide)
    | (have h2 : o < 2 := ho
       interval_cases o <;> decide)
    | (have h2 : o < 4 := ho
       interval_cases o <;> decide)

/-- Moving down one cell commutes with the `y_adjustment` argument of
`is_valid_position`. -/
theorem is_valid_position_down_shift (p : Piece) (b : GameBoard) :
    ({ p with y := p.y + 1 } : Piece).is_valid_position b 0 0 = p.is_valid_position b 0 1 := by
  rw [Bool.eq_iff_iff, is_valid_position_iff, is_valid_position_iff]
  dsimp only
  simp only [add_zero, ← add_assoc]

/-- A piece whose lowest occupied cell would sit at or below the last row
after moving down cannot legally move down. -/
theorem legal_down_eq_false_of_bottom (b : GameBoard) (q : Piece)
    (hor : q.orientation < numOrientations q.shape)
    (hge : (b.rows : Int) ≤ q.y + 1 + maxTemplateRow q.shape q.orientation) :
    q.legal_down b = false := by
  rw [Bool.eq_false_iff]
  intro habs
  unfold Piece.legal_down at habs
  obtain ⟨h2le, hocc2, h5⟩ := maxTemplateRow_spec q.shape q.orientation hor
  obtain ⟨tx, htx, hocc⟩ := (rowOccupied_iff q.shape q.orientation _).mp hocc2
  have hcell := (is_valid_position_iff q b 0 1).mp habs tx htx
    (maxTemplateRow q.shape q.orientation) h5 hocc (by omega)
  obtain ⟨hob, _⟩ := hcell
  unfold GameBoard.is_on_board at hob
  rw [decide_eq_true_eq] at hob
  omega

/-- The state of the `move_to_bottom` loop after `n` allowed iterations:
either it broke with `legal_down` false, or it performed all `n` downward
moves, ending in a valid position when `n > 0`. -/
theorem moveToBottomGo_spec (b : GameBoard) :
    ∀ (n : Nat) (p : Piece),
      (moveToBottomGo b n p).shape = p.shape ∧
      (moveToBottomGo b n p).orientation = p.orientation ∧
      ((moveToBottomGo b n p).legal_down b = false ∨
        ((moveToBottomGo b n p).y = p.y + n ∧
          (n = 0 ∨ (moveToBottomGo b n p).is_valid_position b 0 0 = true))) := by
  intro n
  induction n with
  | zero =>
    intro p
    exact ⟨rfl, rfl, Or.inr ⟨by simp [moveToBottomGo], Or.inl rfl⟩⟩
  | succ n ih =>
    intro p
    by_cases hld : p.legal_down b = true
    · have hstep : moveToBottomGo b (n + 1) p = moveToBottomGo b n { p with y := p.y + 1 } := by
        simp only [moveToBottomGo]
        rw [if_pos hld]
      obtain ⟨hs, ho, hrest⟩ := ih { p with y := p.y + 1 }
      refine ⟨by rw [hstep]; exact hs, by rw [hstep]; exact ho, ?_⟩
      rw [hstep]
      rcases hrest with h | ⟨hyy, hval⟩
      · exact Or.inl h
      · refine Or.inr ⟨by rw [hyy]; dsimp only; push_cast; ring, Or.inr ?_⟩
        rcases hval with h0 | hv
        · subst h0
          show ({ p with y := p.y + 1 } : Piece).is_valid_position b 0 0 = true
          rw [is_valid_position_down_shift]
          unfold Piece.legal_down at hld
          exact hld
        · exact hv
    · have hstep : moveToBottomGo b (n + 1) p = p := by
        simp only [moveToBottomGo]
        rw [if_neg hld]
      exact ⟨by rw [hstep], by rw [hstep], Or.inl (by rw [hstep]; exact Bool.eq_false_iff.mpr hld)⟩

/-- Piece for the C6 counterexample: a valid O piece hovering far above the
board. -/
def pieceHighO : Piece := { shape := Shape.O, x := 3, y := -10, orientation := 0, colour := 0 }

/-- Claim C6, counterexample: `move_to_bottom` performs at most `rows - 1`
downward moves, so the O piece at the valid position `y = -10` on a blank
default board ends at `y = 9`: `legal_down` is still true and its lowest
occupied cell sits at row 12, not at the bottommost row 19. -/
theorem claim_C6_counterexample :
    pieceHighO.is_valid_position boardBlank 0 0 = true ∧
    (pieceHighO.move_to_bottom boardBlank).legal_down boardBlank = true ∧
    lowest_occupied_row (pieceHighO.move_to_bottom boardBlank) ≠ (boardBlank.rows : Int) - 1 :=
  ⟨by decide, by decide, by decide⟩

/-- Claim C6, amended: for a piece with a real orientation index whose `y` is
at least `NEW_PIECES_START_Y = -2` — as is the case for every piece the game
creates, since pieces spawn at `y = -2` and only ever move down — and which is
in a valid position, `move_to_bottom` leaves it where `legal_down` is false or
its lowest occupied cell is at the bottommost row. -/
theorem claim_C6_amended (b : GameBoard) (p : Piece)
    (hor : p.orientation < numOrientations p.shape)
    (hy : NEW_PIECES_START_Y ≤ p.y)
    (_hvalid : p.is_valid_position b 0 0 = true) :
    (p.move_to_bottom b).legal_down b = false ∨
      lowest_occupied_row (p.move_to_bottom b) = (b.rows : Int) - 1 := by
  have hy2 : (-2 : Int) ≤ p.y := hy
  obtain ⟨hs, ho, hrest⟩ := moveToBottomGo_spec b (b.rows - 1) p
  show (moveToBottomGo b (b.rows - 1) p).legal_down b = false ∨
    lowest_occupied_row (moveToBottomGo b (b.rows - 1) p) = (b.rows : Int) - 1
  rcases hrest with hdone | ⟨hyy, hval⟩
  · exact Or.inl hdone
  · obtain ⟨h2le, hocc2, h5⟩ := maxTemplateRow_spec p.shape p.orientation hor
    rcases hval with h0 | hv
    · left
      have hrows : b.rows ≤ 1 := by omega
      have hq : moveToBottomGo b (b.rows - 1) p = p := by
        rw [h0]
        rfl
      rw [hq]
      exact legal_down_eq_false_of_bottom b p hor (by omega)
    · right
      unfold lowest_occupied_row
      rw [hs, ho]
      obtain ⟨tx, htx, hocc⟩ := (rowOccupied_iff p.shape p.orientation _).mp hocc2
      have hoccq : templateCell (moveToBottomGo b (b.rows - 1) p).shape
          (moveToBottomGo b (b.rows - 1) p).orientation
          (maxTemplateRow p.shape p.orientation) tx ≠ BLANK := by
        rw [hs, ho]
        exact hocc
      have hcell := (is_valid_position_iff (moveToBottomGo b (b.rows - 1) p) b 0 0).mp hv tx htx
        (maxTemplateRow p.shape p.orientation) h5 hoccq (by omega)
      obtain ⟨hob, _⟩ := hcell
      unfold GameBoard.is_on_board at hob
      rw [decide_eq_true_eq] at hob
      omega

theorem claim_C6_amended_witness :
    (mkPiece boardBlank drawO).orientation < numOrientations (mkPiece boardBlank drawO).shape ∧
    NEW_PIECES_START_Y ≤ (mkPiece boardBlank drawO).y ∧
    (mkPiece boardBlank drawO).is_valid_position boardBlank 0 0 = true ∧
    (((mkPiece boardBlank drawO).move_to_bottom boardBlank).legal_down boardBlank = false ∨
      lowest_occupied_row ((mkPiece boardBlank drawO).move_to_bottom boardBlank)
        = (boardBlank.rows : Int) - 1) :=
  ⟨by decide, by decide, by decide,
    claim_C6_amended boardBlank (mkPiece boardBlank drawO) (by decide) (by decide) (by decide)⟩

/-- `getD` after `set` at the written index. -/
theorem getD_set_self {α : Type} :
    ∀ (l : List α) (i : Nat) (v d : α), i < l.length → (l.set i v).getD i d = v := by
  intro l
  induction l with
  | nil => intro i v d h; simp at h
  | cons a l ih =>
    intro i v d h
    cases i with
    | zero => rfl
    | succ i =>
      rw [List.set_cons_succ, List.getD_cons_succ]
      exact ih i v d (by simpa using h)

/-- `getD` after `set` at a different index. -/
theorem getD_set_ne {α : Type} :
    ∀ (l : List α) (i j : Nat) (v d : α), i ≠ j → (l.set i v).getD j d = l.getD j d := by
  intro l
  induction l with
  | nil => intro i j v d _; simp
  | cons a l ih =>
    intro i j v d h
    cases i with
    | zero =>
      cases j with
      | zero => exact absurd rfl h
      | succ j => rfl
    | succ i =>
      cases j with
      | zero => rfl
      | succ j =>
        rw [List.set_cons_succ, List.getD_cons_succ, List.getD_cons_succ]
        exact ih i j v d (by omega)

/-- In-range `pyWrite` is an honest two-level `set` with the row index
normalised against the column length. -/
theorem pyWrite_eq (st : List (List Cell)) (cx cy : Int) (v : Cell)
    (hcx : 0 ≤ cx) (_hcxlen : cx < (st.length : Int))
    (hcy : -(((st.getD cx.toNat []).length : Int)) ≤ cy)
    (_hcy2 : cy < ((st.getD cx.toNat []).length : Int)) :
    pyWrite st cx cy v
      = st.set cx.toNat ((st.getD cx.toNat []).set
          (pyIdx (st.getD cx.toNat []).length cy).toNat v) := by
  have h1 : pyIdx st.length cx = cx := by
    unfold pyIdx
    rw [if_neg (by omega)]
  have h2 : 0 ≤ pyIdx (st.getD cx.toNat []).length cy := by
    unfold pyIdx
    split <;> omega
  unfold pyWrite pySet
  rw [h1, if_pos hcx, if_pos h2]

/-- The cumulative effect of the `add_to_board` writes: if some enumerated
occupied coordinate writes the target cell, the final value there is the
piece's colour (every write writes the same colour, and writes to other
normalised coordinates do not disturb the target). -/
theorem addWrites_cell (p : Piece) (C R : Nat) :
    ∀ (l : List (Nat × Nat)) (st : List (List Cell)),
      st.length = C → (∀ a, a < C → (st.getD a []).length = R) →
      (∀ xy ∈ l, templateCell p.shape p.orientation xy.2 xy.1 ≠ BLANK →
        0 ≤ (xy.1 : Int) + p.x ∧ (xy.1 : Int) + p.x < (C : Int) ∧
        -(R : Int) ≤ (xy.2 : Int) + p.y ∧ (xy.2 : Int) + p.y < (R : Int)) →
      ∀ tgtc tgtr : Nat, tgtc < C → tgtr < R →
      ((st.getD tgtc []).getD tgtr Cell.blank = Cell.colour p.colour ∨
        ∃ xy ∈ l, templateCell p.shape p.orientation xy.2 xy.1 ≠ BLANK ∧
          ((xy.1 : Int) + p.x).toNat = tgtc ∧
          (pyIdx R ((xy.2 : Int) + p.y)).toNat = tgtr) →
      (((l.foldl (addStep p) st).getD tgtc []).getD tgtr Cell.blank) = Cell.colour p.colour := by
  intro l
  induction l with
  | nil =>
    intro st hlen hcols _ tgtc tgtr htc htr hdisj
    rcases hdisj with h | ⟨xy, hmem, _⟩
    · exact h
    · exact absurd hmem (List.not_mem_nil xy)
  | cons xy l ih =>
    intro st hlen hcols hb tgtc tgtr htc htr hdisj
    by_cases hocc : templateCell p.shape p.orientation xy.2 xy.1 ≠ BLANK
    · obtain ⟨hx0, hx1, hy0, hy1⟩ := hb xy (by simp) hocc
      have hcollen : (st.getD ((xy.1 : Int) + p.x).toNat []).length = R :=
        hcols _ (by omega)
      have hw := pyWrite_eq st ((xy.1 : Int) + p.x) ((xy.2 : Int) + p.y)
        (Cell.colour p.colour) hx0 (by omega) (by rw [hcollen]; omega) (by rw [hcollen]; omega)
      have hstep : addStep p st xy
          = st.set ((xy.1 : Int) + p.x).toNat
              ((st.getD ((xy.1 : Int) + p.x).toNat []).set
                (pyIdx (st.getD ((xy.1 : Int) + p.x).toNat []).length
                  ((xy.2 : Int) + p.y)).toNat (Cell.colour p.colour)) := by
        unfold addStep
        rw [if_pos (by simpa using hocc)]
        exact hw
      rw [List.foldl_cons, hstep]
      set st2 := st.set ((xy.1 : Int) + p.x).toNat
        ((st.getD ((xy.1 : Int) + p.x).toNat []).set
          (pyIdx (st.getD ((xy.1 : Int) + p.x).toNat []).length
            ((xy.2 : Int) + p.y)).toNat (Cell.colour p.colour)) with hst2
      have hlen2 : st2.length = C := by rw [hst2, List.length_set]; exact hlen
      have hcols2 : ∀ a, a < C → (st2.getD a []).length = R := by
        intro a ha
        rw [hst2]
        by_cases hax : ((xy.1 : Int) + p.x).toNat = a
        · subst hax
          rw [getD_set_self _ _ _ _ (by omega), List.length_set]
          exact hcols _ (by omega)
        · rw [getD_set_ne _ _ _ _ _ hax]
          exact hcols a ha
      apply ih st2 hlen2 hcols2 (fun c hc => hb c (by simp [hc])) tgtc tgtr htc htr
      by_cases htgt : ((xy.1 : Int) + p.x).toNat = tgtc ∧
          (pyIdx R ((xy.2 : Int) + p.y)).toNat = tgtr
      · left
        obtain ⟨ht1, ht2⟩ := htgt
        rw [hst2, ← ht1, ← ht2]
        rw [getD_set_self _ _ _ _ (by omega)]
        rw [hcollen]
        refine getD_set_self _ _ _ _ ?_
        rw [hcollen]
        unfold pyIdx
        split <;> omega
      · rcases hdisj with hleft | ⟨c, hmem, hco, hc1, hc2⟩
        · left
          rw [hst2]
          by_cases hax : ((xy.1 : Int) + p.x).toNat = tgtc
          · have hrne : (pyIdx (st.getD ((xy.1 : Int) + p.x).toNat []).length
                ((xy.2 : Int) + p.y)).toNat ≠ tgtr := by
              rw [hcollen]
              intro habs
              exact htgt ⟨hax, habs⟩
            rw [hax, getD_set_self _ _ _ _ (by omega)]
            rw [← hax]
            rw [getD_set_ne _ _ _ _ _ hrne]
            rw [hax]
            exact hleft
          · rw [getD_set_ne _ _ _ _ _ hax]
            exact hleft
        · rcases List.mem_cons.mp hmem with rfl | hmem2
          · exact absurd ⟨hc1, hc2⟩ htgt
          · exact Or.inr ⟨c, hmem2, hco, hc1, hc2⟩
    · have hstep : addStep p st xy = st := by
        unfold addStep
        rw [if_neg (by simpa using hocc)]
      rw [List.foldl_cons, hstep]
      apply ih st hlen hcols (fun c hc => hb c (by simp [hc])) tgtc tgtr htc htr
      rcases hdisj with hleft | ⟨c, hmem, hco, hc1, hc2⟩
      · exact Or.inl hleft
      · rcases List.mem_cons.mp hmem with rfl | hmem2
        · exact absurd hco hocc
        · exact Or.inr ⟨c, hmem2, hco, hc1, hc2⟩

/-- Membership in the enumerated template coordinates. -/
theorem mem_templatePairs (xy : Nat × Nat) :
    xy ∈ templatePairs ↔ xy.1 < TEMPLATE_WIDTH ∧ xy.2 < TEMPLATE_HEIGHT := by
  unfold templatePairs
  constructor
  · intro h
    simp only [List.mem_flatMap, List.mem_map, List.mem_range] at h
    obtain ⟨a, ha, b, hb, rfl⟩ := h
    exact ⟨ha, hb⟩
  · intro ⟨h1, h2⟩
    simp only [List.mem_flatMap, List.mem_map, List.mem_range]
    exact ⟨xy.1, h1, xy.2, h2, rfl⟩

/-- Claim C8: when every occupied cell of the piece is horizontally on the
board and vertically within Python's legal index range, a cell above the
board (negative row `r`) is written — not skipped — into row `rows + r`,
wrapped by Python's negative list indexing. -/
theorem claim_C8 (b : GameBoard) (p : Piece) (hwf : WF b)
    (hbound : ∀ tx, tx < TEMPLATE_WIDTH → ∀ ty, ty < TEMPLATE_HEIGHT →
      templateCell p.shape p.orientation ty tx ≠ BLANK →
      0 ≤ (tx : Int) + p.x ∧ (tx : Int) + p.x < (b.columns : Int) ∧
      -(b.rows : Int) ≤ (ty : Int) + p.y ∧ (ty : Int) + p.y < (b.rows : Int))
    (tx ty : Nat) (htx : tx < TEMPLATE_WIDTH) (hty : ty < TEMPLATE_HEIGHT)
    (hocc : templateCell p.shape p.orientation ty tx ≠ BLANK)
    (hneg : (ty : Int) + p.y < 0) :
    (p.add_to_board b).cellAt ((tx : Int) + p.x).toNat
      ((b.rows : Int) + ((ty : Int) + p.y)).toNat = Cell.colour p.colour := by
  obtain ⟨h1, h2, h3, h4⟩ := hbound tx htx ty hty hocc
  have hcols : ∀ a, a < b.columns → (b.state.getD a []).length = b.rows := by
    intro a ha
    have halen : a < b.state.length := by rw [hwf.1]; exact ha
    rw [List.getD_eq_getElem _ _ halen]
    exact hwf.2 _ (List.getElem_mem halen)
  show ((templatePairs.foldl (addStep p) b.state).getD ((tx : Int) + p.x).toNat []).getD
    ((b.rows : Int) + ((ty : Int) + p.y)).toNat Cell.blank = Cell.colour p.colour
  apply addWrites_cell p b.columns b.rows templatePairs b.state hwf.1 hcols
  · intro xy hmem hoccxy
    obtain ⟨hx5, hy5⟩ := (mem_templatePairs xy).mp hmem
    exact hbound xy.1 hx5 xy.2 hy5 hoccxy
  · omega
  · omega
  · right
    refine ⟨(tx, ty), (mem_templatePairs _).mpr ⟨htx, hty⟩, hocc, rfl, ?_⟩
    unfold pyIdx
    rw [if_pos hneg]
    omega

/-- Piece for the C8 witness: an O piece one row higher than the spawn row,
so its upper two occupied cells sit at board row `-1`. -/
def pieceOTop : Piece := { shape := Shape.O, x := 3, y := -3, orientation := 0, colour := 2 }

theorem claim_C8_witness :
    WF boardBlank ∧
    templateCell pieceOTop.shape pieceOTop.orientation 2 1 ≠ BLANK ∧
    ((2 : Int) + pieceOTop.y < 0) ∧
    (pieceOTop.add_to_board boardBlank).cellAt ((1 : Int) + pieceOTop.x).toNat
      ((boardBlank.rows : Int) + ((2 : Int) + pieceOTop.y)).toNat
      = Cell.colour pieceOTop.colour :=
  ⟨by decide, by decide, by decide,
    claim_C8 boardBlank pieceOTop (by decide) (by decide) 1 2 (by decide) (by decide)
      (by decide) (by decide)⟩
